import Mathlib

/-!
Shallow embedding of the epub-converter core (package `internal/model`,
`internal/epub`): the document model, the table-of-contents builder, the
XML escaping discipline, the three document generators and the archive
builder, together with theorems settling the specification's claims.

Modelling conventions:
* Go strings are Lean `String`s; raw resource bytes are modelled as a
  `String` of bytes.
* `time.Time` values are modelled by their rendered string form, with the
  empty string standing for Go's zero `time.Time` (`IsZero`).
* The two sources of non-determinism (`uuid.New`, `time.Now`) are passed
  in as explicit parameters `uuid` and `now`.
* The Go `text/template` rendering of the fixed templates is embedded as
  direct string concatenation in exactly the template's output order,
  including the `{{-`-trimmed whitespace.
-/

namespace EpubConv

/-- `model.Chapter`: one reading-order content unit. -/
structure Chapter where
  id : String
  title : String
  level : Nat
  content : String
  fileName : String
  order : Nat
deriving Repr, DecidableEq

/-- `model.Resource`: an embedded media file. The raw bytes are modelled
as a `String`. -/
structure Resource where
  id : String
  fileName : String
  mediaType : String
  data : String
  isCover : Bool
deriving Repr, DecidableEq

/-- `model.TOCEntry`: a navigation item with nested children. -/
inductive TOCEntry where
  | mk (title : String) (href : String) (level : Nat) (children : List TOCEntry)
deriving Repr

/-- Title component of a `TOCEntry`. -/
def TOCEntry.title : TOCEntry → String
  | .mk t _ _ _ => t

/-- Href component of a `TOCEntry`. -/
def TOCEntry.href : TOCEntry → String
  | .mk _ h _ _ => h

/-- Level component of a `TOCEntry`. -/
def TOCEntry.level : TOCEntry → Nat
  | .mk _ _ l _ => l

/-- Children component of a `TOCEntry`. -/
def TOCEntry.children : TOCEntry → List TOCEntry
  | .mk _ _ _ cs => cs

/-- `model.TableOfContents`. -/
structure TableOfContents where
  entries : List TOCEntry
deriving Repr

/-- `model.Metadata`: Dublin-Core publication info. `date` holds the
rendered form of the Go `time.Time`, `""` standing for the zero time. -/
structure Metadata where
  title : String
  authors : List String
  language : String
  identifier : String
  description : String
  publisher : String
  date : String
  rights : String
  coverImage : String
deriving Repr, DecidableEq

/-- `model.NewMetadata`. -/
def newMetadata : Metadata :=
  { title := "", authors := [], language := "en", identifier := ""
    description := "", publisher := "", date := "", rights := "", coverImage := "" }

/-- `model.Document`: the aggregate root. -/
structure Document where
  metadata : Metadata
  chapters : List Chapter
  resources : List Resource
  toc : TableOfContents
deriving Repr

/-- `Document.Valid`: buildable iff the title is non-empty and there is at
least one chapter. -/
def Document.valid (d : Document) : Bool :=
  d.metadata.title != "" && decide (0 < d.chapters.length)

/-- `Document.AddChapter`. -/
def Document.addChapter (d : Document) (c : Chapter) : Document :=
  { d with chapters := d.chapters ++ [c] }

/-- `Metadata.EnsureIdentifier`: generate a UUID URN when absent.  The
fresh UUID text is the `uuid` parameter. -/
def Metadata.ensureIdentifier (m : Metadata) (uuid : String) : Metadata :=
  if m.identifier = "" then { m with identifier := "urn:uuid:" ++ uuid } else m

/-- `Metadata.EnsureDefaults`: default language, identifier and date. -/
def Metadata.ensureDefaults (m : Metadata) (uuid now : String) : Metadata :=
  let m1 := if m.language = "" then { m with language := "en" } else m
  let m2 := m1.ensureIdentifier uuid
  if m2.date = "" then { m2 with date := now } else m2

/-- The title step of `Metadata.Merge`. -/
def Metadata.mergeTitle (m o : Metadata) : Metadata :=
  if o.title != "" then { m with title := o.title } else m

/-- The authors step of `Metadata.Merge` (`len(override.Authors) > 0`). -/
def Metadata.mergeAuthors (m o : Metadata) : Metadata :=
  if 0 < o.authors.length then { m with authors := o.authors } else m

/-- The language step of `Metadata.Merge`. -/
def Metadata.mergeLanguage (m o : Metadata) : Metadata :=
  if o.language != "" then { m with language := o.language } else m

/-- The identifier step of `Metadata.Merge`. -/
def Metadata.mergeIdentifier (m o : Metadata) : Metadata :=
  if o.identifier != "" then { m with identifier := o.identifier } else m

/-- The description step of `Metadata.Merge`. -/
def Metadata.mergeDescription (m o : Metadata) : Metadata :=
  if o.description != "" then { m with description := o.description } else m

/-- The publisher step of `Metadata.Merge`. -/
def Metadata.mergePublisher (m o : Metadata) : Metadata :=
  if o.publisher != "" then { m with publisher := o.publisher } else m

/-- The date step of `Metadata.Merge` (`!override.Date.IsZero()`; the
zero time is modelled by `""`). -/
def Metadata.mergeDate (m o : Metadata) : Metadata :=
  if o.date != "" then { m with date := o.date } else m

/-- The rights step of `Metadata.Merge`. -/
def Metadata.mergeRights (m o : Metadata) : Metadata :=
  if o.rights != "" then { m with rights := o.rights } else m

/-- The cover-image step of `Metadata.Merge`. -/
def Metadata.mergeCoverImage (m o : Metadata) : Metadata :=
  if o.coverImage != "" then { m with coverImage := o.coverImage } else m

/-- `Metadata.Merge`: the override's fields replace the base's fields
when non-empty, one `if` per field in the source's order (the source's
`nil` receiver early-return is the caller's concern; here both sides are
values). -/
def Metadata.merge (m override : Metadata) : Metadata :=
  ((((((((m.mergeTitle override).mergeAuthors override).mergeLanguage
    override).mergeIdentifier override).mergeDescription
    override).mergePublisher override).mergeDate override).mergeRights
    override).mergeCoverImage override

/-- `Metadata.Valid`: the only required field is the title. -/
def Metadata.validB (m : Metadata) : Bool := m.title != ""

/-! ## Table-of-contents builder (`model.BuildFromHeadings`) -/

mutual

/-- `flattenEntry`: an entry followed by its depth-first flattened
children. -/
def flattenEntry : TOCEntry → List TOCEntry
  | .mk t h l cs => .mk t h l cs :: flattenMany cs

/-- Depth-first flattening of a list of entries, in order. -/
def flattenMany : List TOCEntry → List TOCEntry
  | [] => []
  | e :: es => flattenEntry e ++ flattenMany es

end

/-- `TableOfContents.FlatEntries`: all entries in depth-first order. -/
def TableOfContents.FlatEntries (t : TableOfContents) : List TOCEntry :=
  flattenMany t.entries

/-- Append `e` as the last child of `p` (the effect of the source's
`parent.Children = append(parent.Children, entry)`). -/
def attachChild (p e : TOCEntry) : TOCEntry :=
  .mk p.title p.href p.level (p.children ++ [e])

/-- The pop loop of `BuildFromHeadings`, on a non-empty stack `e :: rest`
(top-first): close every open entry whose level is `≥ lvl`.  A closed
entry is attached to the entry below it, or becomes a finished top-level
entry when it was the bottom of the stack.  Returns the updated top-level
list and stack. -/
def popGE (lvl : Nat) (roots : List TOCEntry) (e : TOCEntry) :
    List TOCEntry → List TOCEntry × List TOCEntry
  | [] =>
    if lvl ≤ e.level then (roots ++ [e], []) else (roots, [e])
  | p :: rest =>
    if lvl ≤ e.level then popGE lvl roots (attachChild p e) rest
    else (roots, e :: p :: rest)

/-- One iteration of the `BuildFromHeadings` loop: close deeper-or-equal
open entries, then push the incoming heading with its children reset to
empty (the source's `entry.Children = make([]TOCEntry, 0)`). -/
def stepTOC (st : List TOCEntry × List TOCEntry) (h : TOCEntry) :
    List TOCEntry × List TOCEntry :=
  match st.2 with
  | [] => (st.1, [.mk h.title h.href h.level []])
  | e :: rest =>
    let st2 := popGE h.level st.1 e rest
    (st2.1, .mk h.title h.href h.level [] :: st2.2)

/-- Close every entry still open (stack `e :: rest`) when the heading
list is exhausted. -/
def collapseAll (roots : List TOCEntry) (e : TOCEntry) :
    List TOCEntry → List TOCEntry
  | [] => roots ++ [e]
  | p :: rest => collapseAll roots (attachChild p e) rest

/-- `model.BuildFromHeadings`: build the hierarchical TOC from the flat
ordered heading list by the stack-based nearest-ancestor algorithm.  The
Go version attaches an entry to its parent at push time and keeps
mutating it through a pointer while it is on the stack; this functional
mirror defers the attachment to the moment the entry is closed, which
yields the same final tree. -/
def BuildFromHeadings (headings : List TOCEntry) : TableOfContents :=
  let st := headings.foldl stepTOC ([], [])
  match st.2 with
  | [] => ⟨st.1⟩
  | e :: rest => ⟨collapseAll st.1 e rest⟩

/-! ### Keys: the identifying data of a TOC entry, children excluded -/

/-- The (title, href, level) triple of an entry; `BuildFromHeadings`
rebuilds the children, so entries are compared by this key. -/
def entryKey (e : TOCEntry) : String × String × Nat := (e.title, e.href, e.level)

/-- Keys of the depth-first flattening of one entry. -/
def flatKeys (e : TOCEntry) : List (String × String × Nat) :=
  (flattenEntry e).map entryKey

/-- Keys of the depth-first flattening of an entry list. -/
def keysOfList (es : List TOCEntry) : List (String × String × Nat) :=
  (flattenMany es).map entryKey

/-- Keys contributed by a top-first stack once it is fully collapsed:
the bottom entry's subtree comes first. -/
def stackKeys : List TOCEntry → List (String × String × Nat)
  | [] => []
  | e :: rest => stackKeys rest ++ flatKeys e

/-- Keys of a whole builder state. -/
def stateKeys (st : List TOCEntry × List TOCEntry) : List (String × String × Nat) :=
  keysOfList st.1 ++ stackKeys st.2

theorem flattenMany_append (xs ys : List TOCEntry) :
    flattenMany (xs ++ ys) = flattenMany xs ++ flattenMany ys := by
  induction xs with
  | nil => simp [flattenMany]
  | cons e es ih => simp [flattenMany, ih]

theorem keysOfList_append (xs ys : List TOCEntry) :
    keysOfList (xs ++ ys) = keysOfList xs ++ keysOfList ys := by
  simp [keysOfList, flattenMany_append]

theorem attachChild_level (p e : TOCEntry) : (attachChild p e).level = p.level := by
  cases p; rfl

theorem flatKeys_attachChild (p e : TOCEntry) :
    flatKeys (attachChild p e) = flatKeys p ++ flatKeys e := by
  cases p with
  | mk t h l cs =>
    simp [attachChild, flatKeys, flattenEntry, TOCEntry.title, TOCEntry.href,
      TOCEntry.level, TOCEntry.children, flattenMany_append, flattenMany, entryKey]

theorem flatKeys_reset (h : TOCEntry) :
    flatKeys (.mk h.title h.href h.level []) = [entryKey h] := by
  cases h; simp [flatKeys, flattenEntry, flattenMany, entryKey,
    TOCEntry.title, TOCEntry.href, TOCEntry.level]

theorem keysOfList_singleton (e : TOCEntry) : keysOfList [e] = flatKeys e := by
  simp [keysOfList, flatKeys, flattenMany]

theorem popGE_keys (lvl : Nat) (rest : List TOCEntry) : ∀ roots e,
    stateKeys (popGE lvl roots e rest) =
      keysOfList roots ++ (stackKeys rest ++ flatKeys e) := by
  induction rest with
  | nil =>
    intro roots e
    simp only [popGE]
    split
    · simp [stateKeys, keysOfList_append, stackKeys, keysOfList_singleton]
    · simp [stateKeys, stackKeys]
  | cons p rest2 ih =>
    intro roots e
    simp only [popGE]
    split
    · rw [ih roots (attachChild p e)]
      simp [stackKeys, flatKeys_attachChild]
    · simp [stateKeys, stackKeys]

theorem stepTOC_keys (st : List TOCEntry × List TOCEntry) (h : TOCEntry) :
    stateKeys (stepTOC st h) = stateKeys st ++ [entryKey h] := by
  obtain ⟨roots, stack⟩ := st
  cases stack with
  | nil =>
    simp [stepTOC, stateKeys, stackKeys, flatKeys_reset]
  | cons e rest =>
    have hk := popGE_keys h.level rest roots e
    simp only [stepTOC, stateKeys, stackKeys] at hk ⊢
    rw [flatKeys_reset, ← List.append_assoc, hk]

theorem foldl_stepTOC_keys (hs : List TOCEntry) : ∀ st,
    stateKeys (hs.foldl stepTOC st) = stateKeys st ++ hs.map entryKey := by
  induction hs with
  | nil => intro st; simp
  | cons h hs2 ih =>
    intro st
    simp only [List.foldl_cons, List.map_cons]
    rw [ih, stepTOC_keys]
    simp

theorem collapseAll_keys (rest : List TOCEntry) : ∀ roots e,
    keysOfList (collapseAll roots e rest) =
      keysOfList roots ++ (stackKeys rest ++ flatKeys e) := by
  induction rest with
  | nil =>
    intro roots e
    simp [collapseAll, keysOfList_append, stackKeys, keysOfList_singleton]
  | cons p rest2 ih =>
    intro roots e
    simp only [collapseAll]
    rw [ih roots (attachChild p e)]
    simp [stackKeys, flatKeys_attachChild]

/-- Depth-first flattening of the built TOC lists exactly the input
headings, by key, in order. -/
theorem buildFromHeadings_flat_keys (hs : List TOCEntry) :
    ((BuildFromHeadings hs).FlatEntries).map entryKey = hs.map entryKey := by
  have hfold := foldl_stepTOC_keys hs ([], [])
  simp only [stateKeys, keysOfList, stackKeys, flattenMany, List.map_nil,
    List.append_nil, List.nil_append] at hfold
  simp only [BuildFromHeadings, TableOfContents.FlatEntries]
  split
  · rename_i heq
    rw [heq] at hfold
    simpa [stateKeys, stackKeys, keysOfList] using hfold
  · rename_i e rest heq
    rw [heq] at hfold
    have hc := collapseAll_keys rest (hs.foldl stepTOC ([], [])).1 e
    simp only [stateKeys, stackKeys] at hfold
    simp only [keysOfList] at hc ⊢
    rw [hc]
    simpa using hfold

/-! ### Strict nesting of children levels -/

mutual

/-- Every child (recursively) has a strictly greater level than its
parent. -/
def nestedB : TOCEntry → Bool
  | .mk _ _ l cs => childrenNested l cs

/-- All entries of the list are strictly deeper than `l` and themselves
nested. -/
def childrenNested : Nat → List TOCEntry → Bool
  | _, [] => true
  | l, c :: cs => (decide (l < c.level) && nestedB c) && childrenNested l cs

end

theorem childrenNested_append (l : Nat) (cs ds : List TOCEntry) :
    childrenNested l (cs ++ ds) = (childrenNested l cs && childrenNested l ds) := by
  induction cs with
  | nil => simp [childrenNested]
  | cons c cs2 ih => simp [childrenNested, ih, Bool.and_assoc]

theorem childrenNested_mem {l : Nat} {cs : List TOCEntry}
    (hc : childrenNested l cs = true) {c : TOCEntry} (hm : c ∈ cs) :
    l < c.level ∧ nestedB c = true := by
  induction cs with
  | nil => cases hm
  | cons d ds ih =>
    simp only [childrenNested, Bool.and_eq_true, decide_eq_true_eq] at hc
    rcases List.mem_cons.mp hm with rfl | hm2
    · exact ⟨hc.1.1, hc.1.2⟩
    · exact ih hc.2 hm2

theorem nestedB_attachChild {p e : TOCEntry} (hp : nestedB p = true)
    (he : nestedB e = true) (hlt : p.level < e.level) :
    nestedB (attachChild p e) = true := by
  cases p with
  | mk t h l cs =>
    have hlt2 : l < e.level := hlt
    simp only [attachChild, TOCEntry.title, TOCEntry.href, TOCEntry.level,
      TOCEntry.children, nestedB, childrenNested_append, Bool.and_eq_true] at hp ⊢
    exact ⟨hp, by simp [childrenNested, hlt2, he]⟩

/-- Strictly decreasing stack levels, top (deepest) first. -/
def StackLevels (stack : List TOCEntry) : Prop :=
  List.Chain' (fun a b => b.level < a.level) stack

theorem stackLevels_attach {p e : TOCEntry} {rest : List TOCEntry}
    (h : StackLevels (p :: rest)) : StackLevels (attachChild p e :: rest) := by
  cases rest with
  | nil => simp [StackLevels]
  | cons q rest2 =>
    rcases (List.chain'_cons).mp h with ⟨hpq, hrest⟩
    exact (List.chain'_cons).mpr ⟨by simpa [attachChild_level] using hpq, hrest⟩

theorem popGE_nested (lvl : Nat) (rest : List TOCEntry) : ∀ roots e,
    (∀ r ∈ roots, nestedB r = true) → nestedB e = true →
    (∀ x ∈ rest, nestedB x = true) → StackLevels (e :: rest) →
    (∀ r ∈ (popGE lvl roots e rest).1, nestedB r = true) ∧
    (∀ x ∈ (popGE lvl roots e rest).2, nestedB x = true) ∧
    StackLevels (popGE lvl roots e rest).2 ∧
    (∀ x, (popGE lvl roots e rest).2.head? = some x → x.level < lvl) := by
  induction rest with
  | nil =>
    intro roots e hroots he _ _
    simp only [popGE]
    split
    · refine ⟨?_, by simp, by simp [StackLevels], by simp⟩
      intro r hr
      rcases List.mem_append.mp hr with hr2 | hr2
      · exact hroots r hr2
      · rcases List.mem_singleton.mp hr2 with rfl; exact he
    · rename_i hnle
      refine ⟨hroots, ?_, by simp [StackLevels], ?_⟩
      · intro x hx; rcases List.mem_singleton.mp hx with rfl; exact he
      · intro x hx
        simp only [List.head?_cons, Option.some.injEq] at hx
        subst hx
        omega
  | cons p rest2 ih =>
    intro roots e hroots he hrest hchain
    simp only [popGE]
    split
    · have hp : nestedB p = true := hrest p (by simp)
      have hpe : p.level < e.level := ((List.chain'_cons).mp hchain).1
      have hrest2 : ∀ x ∈ rest2, nestedB x = true := fun x hx => hrest x (by simp [hx])
      have hchain2 : StackLevels (attachChild p e :: rest2) :=
        stackLevels_attach ((List.chain'_cons).mp hchain).2
      exact ih roots (attachChild p e) hroots
        (nestedB_attachChild hp he hpe) hrest2 hchain2
    · rename_i hnle
      refine ⟨hroots, ?_, hchain, ?_⟩
      · intro x hx
        rcases List.mem_cons.mp hx with rfl | hx2
        · exact he
        · exact hrest x hx2
      · intro x hx
        simp only [List.head?_cons, Option.some.injEq] at hx
        subst hx
        omega

/-- The builder-state invariant: finished roots and open entries are all
nested, and the open stack's levels strictly decrease downward. -/
def InvTOC (st : List TOCEntry × List TOCEntry) : Prop :=
  (∀ r ∈ st.1, nestedB r = true) ∧ (∀ x ∈ st.2, nestedB x = true) ∧
    StackLevels st.2

theorem stepTOC_inv (st : List TOCEntry × List TOCEntry) (h : TOCEntry)
    (hinv : InvTOC st) : InvTOC (stepTOC st h) := by
  obtain ⟨roots, stack⟩ := st
  obtain ⟨hroots, hstack, hchain⟩ := hinv
  have hnew : nestedB (.mk h.title h.href h.level []) = true := by
    simp [nestedB, childrenNested]
  cases stack with
  | nil =>
    refine ⟨hroots, ?_, by simp [stepTOC, StackLevels]⟩
    intro x hx
    simp only [stepTOC, List.mem_singleton] at hx
    subst hx
    exact hnew
  | cons e rest =>
    have hpop := popGE_nested h.level rest roots e hroots (hstack e (by simp))
      (fun x hx => hstack x (by simp [hx])) hchain
    refine ⟨hpop.1, ?_, ?_⟩
    · intro x hx
      simp only [stepTOC] at hx
      rcases List.mem_cons.mp hx with rfl | hx2
      · exact hnew
      · exact hpop.2.1 x hx2
    · simp only [stepTOC, StackLevels]
      cases hq : (popGE h.level roots e rest).2 with
      | nil => simp [StackLevels]
      | cons q rest2 =>
        refine (List.chain'_cons).mpr ⟨?_, ?_⟩
        · have := hpop.2.2.2 q (by simp [hq])
          simpa [TOCEntry.level] using this
        · have := hpop.2.2.1
          rw [hq] at this
          exact this

theorem foldl_stepTOC_inv (hs : List TOCEntry) : ∀ st,
    InvTOC st → InvTOC (hs.foldl stepTOC st) := by
  induction hs with
  | nil => intro st h; simpa using h
  | cons h hs2 ih => intro st hst; exact ih _ (stepTOC_inv st h hst)

theorem collapseAll_nested (rest : List TOCEntry) : ∀ roots e,
    (∀ r ∈ roots, nestedB r = true) → nestedB e = true →
    (∀ x ∈ rest, nestedB x = true) → StackLevels (e :: rest) →
    ∀ r ∈ collapseAll roots e rest, nestedB r = true := by
  induction rest with
  | nil =>
    intro roots e hroots he _ _ r hr
    simp only [collapseAll] at hr
    rcases List.mem_append.mp hr with hr2 | hr2
    · exact hroots r hr2
    · rcases List.mem_singleton.mp hr2 with rfl; exact he
  | cons p rest2 ih =>
    intro roots e hroots he hrest hchain
    simp only [collapseAll]
    have hp : nestedB p = true := hrest p (by simp)
    have hpe : p.level < e.level := ((List.chain'_cons).mp hchain).1
    exact ih roots (attachChild p e) hroots (nestedB_attachChild hp he hpe)
      (fun x hx => hrest x (by simp [hx]))
      (stackLevels_attach ((List.chain'_cons).mp hchain).2)

/-- Every top-level entry of the built TOC is recursively nested. -/
theorem buildFromHeadings_nested (hs : List TOCEntry) :
    ∀ r ∈ (BuildFromHeadings hs).entries, nestedB r = true := by
  have hinv : InvTOC (hs.foldl stepTOC ([], [])) :=
    foldl_stepTOC_inv hs ([], []) ⟨by simp, by simp, by simp [StackLevels]⟩
  simp only [BuildFromHeadings]
  split
  · rename_i heq
    exact hinv.1
  · rename_i e rest heq
    have hstack := hinv.2.1
    rw [heq] at hstack
    have hchain := hinv.2.2
    rw [heq] at hchain
    exact collapseAll_nested rest _ e hinv.1 (hstack e (by simp))
      (fun x hx => hstack x (by simp [hx])) hchain

mutual

theorem nested_flattenEntry (e : TOCEntry) (hn : nestedB e = true) :
    ∀ x ∈ flattenEntry e, ∀ c ∈ x.children, x.level < c.level :=
  match e with
  | .mk t h l cs => by
    simp only [nestedB] at hn
    intro x hx
    simp only [flattenEntry] at hx
    rcases List.mem_cons.mp hx with rfl | hx2
    · intro c hc
      exact (childrenNested_mem hn hc).1
    · exact nested_flattenMany cs (fun c hc => (childrenNested_mem hn hc).2) x hx2

theorem nested_flattenMany (cs : List TOCEntry)
    (hn : ∀ c ∈ cs, nestedB c = true) :
    ∀ x ∈ flattenMany cs, ∀ ch ∈ x.children, x.level < ch.level :=
  match cs with
  | [] => by intro x hx; cases hx
  | c :: cs2 => by
    intro x hx
    simp only [flattenMany] at hx
    rcases List.mem_append.mp hx with hx2 | hx2
    · exact nested_flattenEntry c (hn c (by simp)) x hx2
    · exact nested_flattenMany cs2 (fun d hd => hn d (by simp [hd])) x hx2

end

/-! ## Claim theorems for the TOC builder -/

/-- C5: for every input sequence of heading records, in the
`TableOfContents` returned by `BuildFromHeadings` every entry's children
all have a level strictly greater than the entry's own level, and
`FlatEntries` (depth-first flattening of the tree) reproduces the
original input sequence's order exactly (entries compared by their
title/href/level key, since the builder rebuilds the children lists). -/
theorem toc_nesting_and_flatten_order (hs : List TOCEntry) :
    (∀ e ∈ (BuildFromHeadings hs).FlatEntries, ∀ c ∈ e.children,
      e.level < c.level) ∧
    ((BuildFromHeadings hs).FlatEntries).map entryKey = hs.map entryKey := by
  refine ⟨?_, buildFromHeadings_flat_keys hs⟩
  intro e he
  exact nested_flattenMany (BuildFromHeadings hs).entries
    (buildFromHeadings_nested hs) e he

/-- C6: `BuildFromHeadings` applied to `[(level 1, "A"), (level 3, "B")]`
returns a TOC in which A is the single top-level entry and B is A's sole
child — no error, no synthetic entry for the skipped level 2. -/
theorem toc_level_skip_tolerance :
    BuildFromHeadings [.mk "A" "a.xhtml" 1 [], .mk "B" "b.xhtml" 3 []] =
      ⟨[.mk "A" "a.xhtml" 1 [.mk "B" "b.xhtml" 3 []]]⟩ := rfl

/-! ## XML escaping (`html.EscapeString`) and its inverse -/

/-- One character of Go's `html.EscapeString`: the five special
characters become entities, everything else passes through.  The
apostrophe is written `Char.ofNat 39`. -/
def escChar (c : Char) : List Char :=
  if c = '&' then "&amp;".data
  else if c = Char.ofNat 39 then "&#39;".data
  else if c = '<' then "&lt;".data
  else if c = '>' then "&gt;".data
  else if c = '"' then "&#34;".data
  else [c]

/-- `html.EscapeString` on a character list. -/
def escapeChars : List Char → List Char
  | [] => []
  | c :: cs => escChar c ++ escapeChars cs

/-- `html.EscapeString`. -/
def escapeString (s : String) : String := ⟨escapeChars s.data⟩

/-- An XML parser's handling of a text node built from the five entities
`html.EscapeString` emits: each recognised entity decodes to its
character, all other characters are taken verbatim. -/
def unescapeChars : List Char → List Char
  | [] => []
  | '&' :: 'a' :: 'm' :: 'p' :: ';' :: r => '&' :: unescapeChars r
  | '&' :: '#' :: '3' :: '9' :: ';' :: r => Char.ofNat 39 :: unescapeChars r
  | '&' :: 'l' :: 't' :: ';' :: r => '<' :: unescapeChars r
  | '&' :: 'g' :: 't' :: ';' :: r => '>' :: unescapeChars r
  | '&' :: '#' :: '3' :: '4' :: ';' :: r => '"' :: unescapeChars r
  | c :: rest => c :: unescapeChars rest

/-- Well-formedness of an XML text node: no raw `<`, and every `&`
starts one of the five known entities. -/
def textNodeOK : List Char → Bool
  | [] => true
  | '&' :: 'a' :: 'm' :: 'p' :: ';' :: r => textNodeOK r
  | '&' :: '#' :: '3' :: '9' :: ';' :: r => textNodeOK r
  | '&' :: 'l' :: 't' :: ';' :: r => textNodeOK r
  | '&' :: 'g' :: 't' :: ';' :: r => textNodeOK r
  | '&' :: '#' :: '3' :: '4' :: ';' :: r => textNodeOK r
  | '&' :: _ => false
  | '<' :: _ => false
  | _ :: rest => textNodeOK rest

theorem unescapeChars_cons_ne (c : Char) (rest : List Char) (h1 : c ≠ '&') :
    unescapeChars (c :: rest) = c :: unescapeChars rest := by
  conv_lhs => unfold unescapeChars
  split <;> simp_all

theorem textNodeOK_cons_ne (c : Char) (rest : List Char) (h1 : c ≠ '&')
    (h2 : c ≠ '<') : textNodeOK (c :: rest) = textNodeOK rest := by
  conv_lhs => unfold textNodeOK
  split <;> simp_all

theorem unescape_escape (s : List Char) :
    unescapeChars (escapeChars s) = s := by
  induction s with
  | nil => rfl
  | cons c cs ih =>
    show unescapeChars (escChar c ++ escapeChars cs) = c :: cs
    by_cases h1 : c = '&'
    · subst h1; simpa [escChar, unescapeChars] using ih
    · by_cases h2 : c = Char.ofNat 39
      · subst h2; simpa [escChar, unescapeChars] using ih
      · by_cases h3 : c = '<'
        · subst h3; simpa [escChar, unescapeChars] using ih
        · by_cases h4 : c = '>'
          · subst h4; simpa [escChar, unescapeChars] using ih
          · by_cases h5 : c = '"'
            · subst h5; simpa [escChar, unescapeChars] using ih
            · simp only [escChar, h1, h2, h3, h4, h5, if_false,
                List.singleton_append]
              rw [unescapeChars_cons_ne c _ h1, ih]

theorem textNodeOK_escape (s : List Char) :
    textNodeOK (escapeChars s) = true := by
  induction s with
  | nil => rfl
  | cons c cs ih =>
    show textNodeOK (escChar c ++ escapeChars cs) = true
    by_cases h1 : c = '&'
    · subst h1; simpa [escChar, textNodeOK] using ih
    · by_cases h2 : c = Char.ofNat 39
      · subst h2; simpa [escChar, textNodeOK] using ih
      · by_cases h3 : c = '<'
        · subst h3; simpa [escChar, textNodeOK] using ih
        · by_cases h4 : c = '>'
          · subst h4; simpa [escChar, textNodeOK] using ih
          · by_cases h5 : c = '"'
            · subst h5; simpa [escChar, textNodeOK] using ih
            · simp only [escChar, h1, h2, h3, h4, h5, if_false,
                List.singleton_append]
              rw [textNodeOK_cons_ne c _ h1 h3, ih]

/-! ## Content document generator (`epub.generateContentDocument`) -/

/-- The content template up to (and excluding) the title element. -/
def contentHeadA : String := "<?xml version=\"1.0\" encoding=\"UTF-8\"?>\n<!DOCTYPE html>\n<html xmlns=\"http://www.w3.org/1999/xhtml\" xmlns:epub=\"http://www.idpf.org/2007/ops\">\n<head>\n  <meta charset=\"UTF-8\"/>\n  "

/-- The content template between the title element and the injected
chapter body. -/
def contentHeadB : String := "\n  <link rel=\"stylesheet\" type=\"text/css\" href=\"styles/default.css\"/>\n</head>\n<body epub:type=\"bodymatter\">\n"

/-- The content template after the injected chapter body. -/
def contentTail : String := "\n</body>\n</html>"

/-- `generateContentDocument`: render the fixed XHTML template with the
chapter title (book title as fallback) escaped, and the chapter body
injected verbatim. -/
def generateContentDocument (c : Chapter) (bookTitle : String) : String :=
  let title := if c.title = "" then bookTitle else c.title
  contentHeadA ++ "<title>" ++ escapeString title ++ "</title>" ++
    contentHeadB ++ c.content ++ contentTail

/-! ## Package document generator (`epub.generatePackageDocument`) -/

/-- One manifest `<item>` of the package template. -/
structure ManifestItem where
  id : String
  href : String
  mediaType : String
  props : Option String
deriving Repr, DecidableEq

/-- Render a manifest item exactly as the package template does,
including the line's leading newline and indentation. -/
def renderManifestItem (it : ManifestItem) : String :=
  "\n    <item id=\"" ++ it.id ++ "\" href=\"" ++ it.href ++
    "\" media-type=\"" ++ it.mediaType ++ "\"" ++
    (match it.props with
     | some p => " properties=\"" ++ p ++ "\""
     | none => "") ++ "/>"

/-- The fixed navigation-document manifest entry. -/
def navManifestItem : ManifestItem :=
  ⟨"nav", "nav.xhtml", "application/xhtml+xml", some "nav"⟩

/-- The fixed stylesheet manifest entry. -/
def cssManifestItem : ManifestItem :=
  ⟨"css", "styles/default.css", "text/css", none⟩

/-- The manifest entry of one chapter. -/
def chapterManifestItem (c : Chapter) : ManifestItem :=
  ⟨c.id, c.fileName, "application/xhtml+xml", none⟩

/-- The manifest entry of one resource; the cover resource carries the
`cover-image` property. -/
def resourceManifestItem (r : Resource) : ManifestItem :=
  ⟨r.id, r.fileName, r.mediaType, if r.isCover then some "cover-image" else none⟩

/-- All manifest items of the package template, in template order: nav,
stylesheet, chapters, resources. -/
def manifestItems (d : Document) : List ManifestItem :=
  navManifestItem :: cssManifestItem ::
    (d.chapters.map chapterManifestItem ++ d.resources.map resourceManifestItem)

/-- The spine's idrefs: one per chapter, in slice order. -/
def spineIdrefs (d : Document) : List String := d.chapters.map (·.id)

/-- Render one spine itemref line. -/
def renderItemref (idref : String) : String :=
  "\n    <itemref idref=\"" ++ idref ++ "\"/>"

/-- Render one creator line. -/
def renderCreator (a : String) : String :=
  "\n    <dc:creator>" ++ a ++ "</dc:creator>"

/-- `packageData` of the source: every free-text metadata field is
escaped; chapters and resources are passed through unescaped.  The
`date` field carries the rendered date (the source formats the stored
time as `2006-01-02`); `modified` is the render-time UTC timestamp. -/
structure PackageData where
  identifier : String
  title : String
  language : String
  authors : List String
  description : String
  publisher : String
  rights : String
  date : String
  modified : String
deriving Repr, DecidableEq

/-- Build the `packageData` from the document (the escaping step of
`generatePackageDocument`). -/
def mkPackageData (doc : Document) (now : String) : PackageData :=
  { identifier := escapeString doc.metadata.identifier
    title := escapeString doc.metadata.title
    language := escapeString doc.metadata.language
    authors := doc.metadata.authors.map escapeString
    description := escapeString doc.metadata.description
    publisher := escapeString doc.metadata.publisher
    rights := escapeString doc.metadata.rights
    date := doc.metadata.date
    modified := now }

/-- The package template up to (and excluding) the identifier value. -/
def opfHeadA : String := "<?xml version=\"1.0\" encoding=\"UTF-8\"?>\n<package xmlns=\"http://www.idpf.org/2007/opf\" version=\"3.0\" unique-identifier=\"uid\">\n  <metadata xmlns:dc=\"http://purl.org/dc/elements/1.1/\">\n    <dc:identifier id=\"uid\">"

/-- The package template between identifier and title elements. -/
def opfHeadB : String := "</dc:identifier>\n    "

/-- The package template before the title element: declaration, package
and metadata openers, the identifier element. -/
def opfBeforeTitle (doc : Document) (now : String) : String :=
  opfHeadA ++ (mkPackageData doc now).identifier ++ opfHeadB

/-- The rendered title element of the package document. -/
def opfTitleElem (doc : Document) (now : String) : String :=
  "<dc:title>" ++ (mkPackageData doc now).title ++ "</dc:title>"

/-- The package template after the title element: remaining metadata,
the manifest (nav, stylesheet, chapters, resources) and the spine (one
itemref per chapter, slice order). -/
def opfAfterTitle (doc : Document) (now : String) : String :=
  let d := mkPackageData doc now
  "\n    <dc:language>" ++ d.language ++ "</dc:language>" ++
    String.join (d.authors.map renderCreator) ++
    (if d.description != "" then
      "\n    <dc:description>" ++ d.description ++ "</dc:description>" else "") ++
    (if d.publisher != "" then
      "\n    <dc:publisher>" ++ d.publisher ++ "</dc:publisher>" else "") ++
    (if d.rights != "" then
      "\n    <dc:rights>" ++ d.rights ++ "</dc:rights>" else "") ++
    "\n    <dc:date>" ++ d.date ++ "</dc:date>" ++
    "\n    <meta property=\"dcterms:modified\">" ++ d.modified ++ "</meta>" ++
    "\n  </metadata>\n  <manifest>" ++
    String.join ((manifestItems doc).map renderManifestItem) ++
    "\n  </manifest>\n  <spine>" ++
    String.join ((spineIdrefs doc).map renderItemref) ++
    "\n  </spine>\n</package>"

/-- `generatePackageDocument`: render the OPF package template — the
escaped metadata block, then the manifest, then the spine. -/
def generatePackageDocument (doc : Document) (now : String) : String :=
  opfBeforeTitle doc now ++ opfTitleElem doc now ++ opfAfterTitle doc now

/-! ## Navigation document generator (`epub.generateNavDocument`) -/

/-- `spaces(n)` of the source: `2 * n` space characters. -/
def spacesInd (n : Nat) : String := String.mk (List.replicate (n * 2) ' ')

mutual

/-- `renderTOCEntry`: one list item wrapping an anchor (title escaped,
href verbatim) and, when children exist, a nested ordered list. -/
def renderTOCEntry (e : TOCEntry) (indent : Nat) : String :=
  match e with
  | .mk t h _ cs =>
    spacesInd indent ++ "<li>\n" ++ spacesInd indent ++ "  <a href=\"" ++ h ++
      "\">" ++ escapeString t ++ "</a>\n" ++
      (match cs with
       | [] => ""
       | _ :: _ =>
         spacesInd indent ++ "  <ol>\n" ++ renderTOCEntries cs (indent + 2) ++
           spacesInd indent ++ "  </ol>\n") ++
      spacesInd indent ++ "</li>\n"

/-- Render a list of TOC entries at one indentation depth. -/
def renderTOCEntries (es : List TOCEntry) (indent : Nat) : String :=
  match es with
  | [] => ""
  | e :: rest => renderTOCEntry e indent ++ renderTOCEntries rest indent

end

/-- `renderTOCList`: the TOC tree as nested ordered lists; an empty TOC
renders an empty (but present) list. -/
def renderTOCList (entries : List TOCEntry) : String :=
  match entries with
  | [] => "    <ol></ol>"
  | _ :: _ => "    <ol>\n" ++ renderTOCEntries entries 3 ++ "    </ol>"

/-- `generateNavDocument`: the nav.xhtml content.  The source renders
with `html/template`, whose auto-escaping applies the same five-entity
HTML escaping to the language, title and first-chapter-href
substitutions; the pre-rendered TOC list is `template.HTML` and is
inserted verbatim. -/
def generateNavDocument (doc : Document) : String :=
  let firstChapter : String :=
    match doc.chapters with
    | [] => ""
    | c :: _ => c.fileName
  "<?xml version=\"1.0\" encoding=\"UTF-8\"?>\n<!DOCTYPE html>\n<html xmlns=\"http://www.w3.org/1999/xhtml\" xmlns:epub=\"http://www.idpf.org/2007/ops\" xml:lang=\"" ++
    escapeString doc.metadata.language ++ "\" lang=\"" ++
    escapeString doc.metadata.language ++
    "\">\n<head>\n  <meta charset=\"UTF-8\"/>\n  <title>" ++
    escapeString doc.metadata.title ++
    "</title>\n  <link rel=\"stylesheet\" type=\"text/css\" href=\"styles/default.css\"/>\n</head>\n<body>\n  <nav epub:type=\"toc\" id=\"toc\">\n    <h1>Table of Contents</h1>\n" ++
    renderTOCList doc.toc.entries ++
    "\n  </nav>\n  <nav epub:type=\"landmarks\" id=\"landmarks\" hidden=\"\">\n    <h2>Landmarks</h2>\n    <ol>\n      <li><a epub:type=\"toc\" href=\"nav.xhtml\">Table of Contents</a></li>" ++
    (if decide (0 < doc.chapters.length) then
      "\n      <li><a epub:type=\"bodymatter\" href=\"" ++
        escapeString firstChapter ++ "\">Start of Content</a></li>"
     else "") ++
    "\n    </ol>\n  </nav>\n</body>\n</html>"

/-! ## Archive builder (`epub.Builder`) -/

/-- `epub.ErrMissingTitle` (the errors are modelled by their message
strings). -/
def errMissingTitle : String := "missing required title metadata"

/-- `epub.ErrNoChapters`. -/
def errNoChapters : String := "document has no chapters"

/-- `epub.ErrInvalidDocument`. -/
def errInvalidDocument : String := "invalid document"

/-- `epub.ValidateMetadata`: `some` error when the title is missing. -/
def validateMetadata (m : Metadata) : Option String :=
  if m.validB then none else some errMissingTitle

/-- `MergeMetadata`: start from the source values, overlay the CLI
overrides, then apply defaults.  `none` models a nil pointer. -/
def MergeMetadata (source cli : Option Metadata) (uuid now : String) : Metadata :=
  let result :=
    match source with
    | none => newMetadata
    | some s =>
      { newMetadata with
        title := s.title, authors := newMetadata.authors ++ s.authors
        language := s.language, identifier := s.identifier
        description := s.description, publisher := s.publisher
        date := s.date, rights := s.rights, coverImage := s.coverImage }
  let result :=
    match cli with
    | none => result
    | some c => result.merge c
  result.ensureDefaults uuid now

/-- The fixed `META-INF/container.xml` boilerplate. -/
def containerXML : String := "<?xml version=\"1.0\" encoding=\"UTF-8\"?>\n<container version=\"1.0\" xmlns=\"urn:oasis:names:tc:opendocument:xmlns:container\">\n  <rootfiles>\n    <rootfile full-path=\"OEBPS/content.opf\" media-type=\"application/oebps-package+xml\"/>\n  </rootfiles>\n</container>"

/-- The fixed default stylesheet (braces written as escapes). -/
def defaultCSS : String := "/* Default EPUB stylesheet */\nbody \x7b\n  font-family: serif;\n  line-height: 1.6;\n  margin: 1em;\n\x7d\n\nh1, h2, h3, h4, h5, h6 \x7b\n  font-family: sans-serif;\n  line-height: 1.2;\n  margin-top: 1.5em;\n  margin-bottom: 0.5em;\n\x7d\n\nh1 \x7b font-size: 2em; \x7d\nh2 \x7b font-size: 1.5em; \x7d\nh3 \x7b font-size: 1.25em; \x7d\nh4 \x7b font-size: 1.1em; \x7d\nh5 \x7b font-size: 1em; \x7d\nh6 \x7b font-size: 0.9em; \x7d\n\np \x7b\n  margin: 0.5em 0;\n  text-align: justify;\n\x7d\n\npre, code \x7b\n  font-family: monospace;\n  font-size: 0.9em;\n\x7d\n\npre \x7b\n  background-color: #f5f5f5;\n  padding: 1em;\n  overflow-x: auto;\n  border-radius: 4px;\n\x7d\n\ncode \x7b\n  background-color: #f5f5f5;\n  padding: 0.1em 0.3em;\n  border-radius: 2px;\n\x7d\n\npre code \x7b\n  background-color: transparent;\n  padding: 0;\n\x7d\n\nblockquote \x7b\n  margin: 1em 2em;\n  padding-left: 1em;\n  border-left: 3px solid #ccc;\n  font-style: italic;\n\x7d\n\nul, ol \x7b\n  margin: 0.5em 0;\n  padding-left: 2em;\n\x7d\n\nli \x7b\n  margin: 0.25em 0;\n\x7d\n\ntable \x7b\n  border-collapse: collapse;\n  width: 100%;\n  margin: 1em 0;\n\x7d\n\nth, td \x7b\n  border: 1px solid #ccc;\n  padding: 0.5em;\n  text-align: left;\n\x7d\n\nth \x7b\n  background-color: #f5f5f5;\n  font-weight: bold;\n\x7d\n\nimg \x7b\n  max-width: 100%;\n  height: auto;\n\x7d\n\na \x7b\n  color: #0066cc;\n  text-decoration: none;\n\x7d\n\na:hover \x7b\n  text-decoration: underline;\n\x7d\n\n/* Task list styling */\n.task-list \x7b\n  list-style-type: none;\n  padding-left: 0;\n\x7d\n\n.task-list-item \x7b\n  display: flex;\n  align-items: flex-start;\n\x7d\n\n.task-list-item input \x7b\n  margin-right: 0.5em;\n\x7d\n"

/-- The hardcoded colophon body of `addColophon`. -/
def colophonContent : String := "<hr style=\"margin: 3em 0;\"/>\n<div style=\"text-align: center; font-family: monospace; white-space: pre-wrap; padding: 2em 1em; background-color: #f9f9f9; border: 1px solid #ddd; margin: 2em 0;\">\n------------------------------------------------------------------\nPackaged by Epub Converter Application (c) 2025 Dau Quang Thanh.\n\nURL: <a href=\"https://github.com/DauQuangThanh/epub-converter\">https://github.com/DauQuangThanh/epub-converter</a>\n\nHappy Reading!\n------------------------------------------------------------------\n</div>"

/-- The attribution chapter appended by `addColophon`, taking the next
zero-based order position. -/
def colophonChapter (d : Document) : Chapter :=
  { id := "colophon", title := "About This EPUB", level := 1
    content := colophonContent, fileName := "content/colophon.xhtml"
    order := d.chapters.length }

/-- `Builder.addColophon`: append the attribution chapter. -/
def addColophon (d : Document) : Document :=
  d.addChapter (colophonChapter d)

/-- Storage method of a zip entry: `archive/zip`'s `Store` (no
compression) or `Deflate` (the default of `zip.Writer.Create`). -/
inductive ZipMethod where
  | store
  | deflate
deriving Repr, DecidableEq

/-- One entry of the produced archive, in writing order. -/
structure ZipEntry where
  name : String
  method : ZipMethod
  data : String
deriving Repr, DecidableEq

/-- `writeMimetype`: the first entry, explicitly `zip.Store`, with the
literal ASCII content. -/
def mimetypeEntry : ZipEntry := ⟨"mimetype", .store, "application/epub+zip"⟩

/-- `Builder.writeEPUB`: the archive entries in the exact writing order
of the source — mimetype, container, package document, navigation
document, one content document per chapter, resources, stylesheet. -/
def writeEPUB (d : Document) (now : String) : List ZipEntry :=
  [mimetypeEntry,
   ⟨"META-INF/container.xml", .deflate, containerXML⟩,
   ⟨"OEBPS/content.opf", .deflate, generatePackageDocument d now⟩,
   ⟨"OEBPS/nav.xhtml", .deflate, generateNavDocument d⟩] ++
  d.chapters.map (fun c =>
    ⟨"OEBPS/" ++ c.fileName, .deflate, generateContentDocument c d.metadata.title⟩) ++
  d.resources.map (fun r => ⟨"OEBPS/" ++ r.fileName, .deflate, r.data⟩) ++
  [⟨"OEBPS/styles/default.css", .deflate, defaultCSS⟩]

/-- `Builder.Build`: ensure metadata defaults, reject an invalid
document with the source's single generic error, append the colophon and
serialize.  `uuid` and `now` supply the two non-deterministic inputs. -/
def build (d : Document) (uuid now : String) : Except String (List ZipEntry) :=
  let d2 : Document := { d with metadata := d.metadata.ensureDefaults uuid now }
  if d2.valid then
    Except.ok (writeEPUB (addColophon d2) now)
  else
    Except.error "invalid document: missing title or chapters"

/-! ## Metadata lemmas -/

theorem mergeTitle_norm (m o : Metadata) :
    m.mergeTitle o = { m with title := if o.title = "" then m.title else o.title } := by
  by_cases h : o.title = "" <;> simp [Metadata.mergeTitle, h]

theorem mergeAuthors_norm (m o : Metadata) :
    m.mergeAuthors o =
      { m with authors := if o.authors = [] then m.authors else o.authors } := by
  cases h : o.authors <;> simp [Metadata.mergeAuthors, h]

theorem mergeLanguage_norm (m o : Metadata) :
    m.mergeLanguage o =
      { m with language := if o.language = "" then m.language else o.language } := by
  by_cases h : o.language = "" <;> simp [Metadata.mergeLanguage, h]

theorem mergeIdentifier_norm (m o : Metadata) :
    m.mergeIdentifier o =
      { m with identifier := if o.identifier = "" then m.identifier else o.identifier } := by
  by_cases h : o.identifier = "" <;> simp [Metadata.mergeIdentifier, h]

theorem mergeDescription_norm (m o : Metadata) :
    m.mergeDescription o =
      { m with description := if o.description = "" then m.description else o.description } := by
  by_cases h : o.description = "" <;> simp [Metadata.mergeDescription, h]

theorem mergePublisher_norm (m o : Metadata) :
    m.mergePublisher o =
      { m with publisher := if o.publisher = "" then m.publisher else o.publisher } := by
  by_cases h : o.publisher = "" <;> simp [Metadata.mergePublisher, h]

theorem mergeDate_norm (m o : Metadata) :
    m.mergeDate o = { m with date := if o.date = "" then m.date else o.date } := by
  by_cases h : o.date = "" <;> simp [Metadata.mergeDate, h]

theorem mergeRights_norm (m o : Metadata) :
    m.mergeRights o =
      { m with rights := if o.rights = "" then m.rights else o.rights } := by
  by_cases h : o.rights = "" <;> simp [Metadata.mergeRights, h]

theorem mergeCoverImage_norm (m o : Metadata) :
    m.mergeCoverImage o =
      { m with coverImage := if o.coverImage = "" then m.coverImage else o.coverImage } := by
  by_cases h : o.coverImage = "" <;> simp [Metadata.mergeCoverImage, h]

theorem ensureDefaults_title (m : Metadata) (uuid now : String) :
    (m.ensureDefaults uuid now).title = m.title := by
  simp only [Metadata.ensureDefaults, Metadata.ensureIdentifier]
  split <;> split <;> split <;> rfl

/-- The validity check of the ensured document reduces to the original
document's title and chapter conditions (`EnsureDefaults` never touches
the title or the chapters). -/
theorem valid_ensured_iff (d : Document) (uuid now : String) :
    ({ d with metadata := d.metadata.ensureDefaults uuid now } : Document).valid = true ↔
      (d.metadata.title ≠ "" ∧ d.chapters ≠ []) := by
  simp [Document.valid, bne_iff_ne, List.length_pos, ensureDefaults_title]

/-! ## Claim theorems for metadata merging and build validation -/

/-- C9: for every base and override `Metadata`, the merge yields a
`Metadata` in which each field independently takes the override's value
when present (non-empty string, non-empty list, non-zero timestamp) and
otherwise keeps the base's value; a field set in base and absent in the
override is unchanged. -/
theorem metadata_merge_fieldwise (base override : Metadata) :
    base.merge override =
      { title := if override.title = "" then base.title else override.title
        authors := if override.authors = [] then base.authors else override.authors
        language := if override.language = "" then base.language else override.language
        identifier := if override.identifier = "" then base.identifier else override.identifier
        description := if override.description = "" then base.description else override.description
        publisher := if override.publisher = "" then base.publisher else override.publisher
        date := if override.date = "" then base.date else override.date
        rights := if override.rights = "" then base.rights else override.rights
        coverImage := if override.coverImage = "" then base.coverImage else override.coverImage } := by
  rw [Metadata.merge, mergeTitle_norm, mergeAuthors_norm, mergeLanguage_norm,
    mergeIdentifier_norm, mergeDescription_norm, mergePublisher_norm,
    mergeDate_norm, mergeRights_norm, mergeCoverImage_norm]

/-- C10: `Build` returns successfully if and only if, after
`EnsureDefaults`, the title is non-empty and the chapter list is
non-empty; no other input condition is validated (duplicate IDs or
fileNames, unsupported media types, empty resource data, multiple cover
resources all still build). -/
theorem build_ok_iff_title_and_chapters (d : Document) (uuid now : String) :
    (∃ out, build d uuid now = Except.ok out) ↔
      (d.metadata.title ≠ "" ∧ d.chapters ≠ []) := by
  simp only [build]
  split
  · rename_i hv
    exact ⟨fun _ => (valid_ensured_iff d uuid now).mp hv, fun _ => ⟨_, rfl⟩⟩
  · rename_i hv
    constructor
    · rintro ⟨out, hout⟩
      cases hout
    · intro hcond
      exact absurd ((valid_ensured_iff d uuid now).mpr hcond) hv

/-- A concrete well-formed document used as witness input: one chapter,
no resources. -/
def sampleDoc : Document :=
  { metadata :=
      { title := "T", authors := [], language := "", identifier := ""
        description := "", publisher := "", date := "", rights := ""
        coverImage := "" }
    chapters :=
      [{ id := "ch1", title := "", level := 1, content := "<p>hi</p>"
         fileName := "content/chapter-001.xhtml", order := 0 }]
    resources := []
    toc := ⟨[]⟩ }

/-- A concrete document with a title but no chapters. -/
def noChaptersDoc : Document :=
  { metadata :=
      { title := "T", authors := [], language := "", identifier := ""
        description := "", publisher := "", date := "", rights := ""
        coverImage := "" }
    chapters := [], resources := [], toc := ⟨[]⟩ }

/-- C4 counterexample: on a document with zero chapters, `Build` fails —
but with the single generic invalid-document error message, not with the
distinct `ErrMissingTitle` / `ErrNoChapters` error kinds (which `Build`
never returns). -/
theorem build_error_not_distinct_kinds :
    build noChaptersDoc "sample-uuid" "2025-01-01" =
      Except.error "invalid document: missing title or chapters" ∧
    "invalid document: missing title or chapters" ≠ errMissingTitle ∧
    "invalid document: missing title or chapters" ≠ errNoChapters :=
  ⟨rfl, by decide, by decide⟩

/-- C4 amended: a document with an empty title (after defaulting, which
never fills the title) or zero chapters makes `Build` fail with the
generic invalid-document error and produce no output bytes. -/
theorem build_rejects_invalid (d : Document) (uuid now : String)
    (h : d.metadata.title = "" ∨ d.chapters = []) :
    build d uuid now =
      Except.error "invalid document: missing title or chapters" := by
  have hnot : ¬ (d.metadata.title ≠ "" ∧ d.chapters ≠ []) := by tauto
  simp only [build]
  split
  · rename_i hv
    exact absurd ((valid_ensured_iff d uuid now).mp hv) hnot
  · rfl

/-- Witness for `build_rejects_invalid` at the concrete chapterless
document. -/
theorem build_rejects_invalid_witness :
    build noChaptersDoc "sample-uuid" "2025-01-01" =
      Except.error "invalid document: missing title or chapters" :=
  build_rejects_invalid noChaptersDoc "sample-uuid" "2025-01-01" (Or.inr rfl)

/-- C1 counterexample: the mimetype content is exactly
`application/epub+zip`, which is 20 bytes, not the claimed 21. -/
theorem mimetype_is_20_bytes_not_21 :
    (build sampleDoc "sample-uuid" "2025-01-01").toOption.bind List.head? =
      some mimetypeEntry ∧
    mimetypeEntry.data = "application/epub+zip" ∧
    mimetypeEntry.data.length = 20 ∧ mimetypeEntry.data.length ≠ 21 :=
  ⟨rfl, rfl, rfl, by decide⟩

/-- C1 amended: for every document accepted by `Build`, the first entry
of the archive is named `mimetype`, stored without compression, with
content exactly the 20 ASCII bytes `application/epub+zip` and no
trailing newline. -/
theorem build_first_entry_mimetype (d : Document) (uuid now : String)
    (out : List ZipEntry) (h : build d uuid now = Except.ok out) :
    out.head? = some mimetypeEntry ∧ mimetypeEntry.name = "mimetype" ∧
    mimetypeEntry.method = ZipMethod.store ∧
    mimetypeEntry.data = "application/epub+zip" ∧
    mimetypeEntry.data.length = 20 := by
  refine ⟨?_, rfl, rfl, rfl, rfl⟩
  simp only [build] at h
  split at h
  · cases h
    rfl
  · cases h

/-- Witness for `build_first_entry_mimetype` at the concrete sample
document. -/
theorem build_first_entry_mimetype_witness :
    ∃ out, build sampleDoc "sample-uuid" "2025-01-01" = Except.ok out ∧
      out.head? = some mimetypeEntry ∧
      mimetypeEntry.method = ZipMethod.store :=
  ⟨_, rfl,
    (build_first_entry_mimetype sampleDoc "sample-uuid" "2025-01-01" _ rfl).1,
    (build_first_entry_mimetype sampleDoc "sample-uuid" "2025-01-01" _ rfl).2.2.1⟩

/-! ## Claim theorems for the package document -/

/-- The document the builder actually serializes: defaults ensured, the
colophon appended. -/
def finalDoc (d : Document) (uuid now : String) : Document :=
  addColophon { d with metadata := d.metadata.ensureDefaults uuid now }

/-- On a valid document, `Build` succeeds and serializes `finalDoc`. -/
theorem build_ok_final (d : Document) (uuid now : String)
    (hT : d.metadata.title ≠ "") (hC : d.chapters ≠ []) :
    build d uuid now = Except.ok (writeEPUB (finalDoc d uuid now) now) := by
  simp only [build, finalDoc]
  split
  · rfl
  · rename_i hv
    exact absurd ((valid_ensured_iff d uuid now).mpr ⟨hT, hC⟩) hv

/-- C2 counterexample: the sample document has N = 1 chapter and M = 0
resources, but the manifest of the produced package document has 4
items (chapter, colophon, nav, stylesheet), not N + M + 2 = 3. -/
theorem manifest_count_not_n_plus_m_plus_2 :
    build sampleDoc "sample-uuid" "2025-01-01" =
      Except.ok (writeEPUB (finalDoc sampleDoc "sample-uuid" "2025-01-01")
        "2025-01-01") ∧
    (manifestItems (finalDoc sampleDoc "sample-uuid" "2025-01-01")).length = 4 ∧
    sampleDoc.chapters.length + sampleDoc.resources.length + 2 = 3 ∧
    (4 : Nat) ≠ 3 :=
  ⟨rfl, rfl, rfl, by decide⟩

/-- C2 amended: for every valid document with N chapters and M resources
(at most one marked as cover), the manifest of the produced package
document contains exactly N + M + 3 items (chapters, the appended
colophon, resources, nav, stylesheet) with the cover-image property on
at most one item, and the spine contains exactly N + 1 itemrefs. -/
theorem manifest_spine_counts (d : Document) (uuid now : String)
    (hT : d.metadata.title ≠ "") (hC : d.chapters ≠ [])
    (hCov : d.resources.countP (fun r => r.isCover) ≤ 1) :
    build d uuid now = Except.ok (writeEPUB (finalDoc d uuid now) now) ∧
    (manifestItems (finalDoc d uuid now)).length =
      d.chapters.length + d.resources.length + 3 ∧
    ((manifestItems (finalDoc d uuid now)).countP
      (fun it => it.props == some "cover-image")) ≤ 1 ∧
    (spineIdrefs (finalDoc d uuid now)).length = d.chapters.length + 1 := by
  refine ⟨build_ok_final d uuid now hT hC, ?_, ?_, ?_⟩
  · simp [manifestItems, finalDoc, addColophon, Document.addChapter]
    omega
  · have hchap : ∀ (cs : List Chapter),
        (cs.map chapterManifestItem).countP
          (fun it => it.props == some "cover-image") = 0 := by
      intro cs
      rw [List.countP_map]
      simp [List.countP_eq_zero, chapterManifestItem]
    have hres : ∀ (rs : List Resource),
        (rs.map resourceManifestItem).countP
            (fun it => it.props == some "cover-image") =
          rs.countP (fun r => r.isCover) := by
      intro rs
      rw [List.countP_map]
      apply List.countP_congr
      intro r hr
      by_cases h : r.isCover <;> simp [resourceManifestItem, h]
    have hresources : (finalDoc d uuid now).resources = d.resources := rfl
    simp only [manifestItems, List.countP_cons, List.countP_append, hresources]
    rw [hchap, hres]
    simp [navManifestItem, cssManifestItem]
    omega
  · simp [spineIdrefs, finalDoc, addColophon, Document.addChapter]

/-- Witness for `manifest_spine_counts` at the concrete sample
document. -/
theorem manifest_spine_counts_witness :
    (manifestItems (finalDoc sampleDoc "sample-uuid" "2025-01-01")).length =
      sampleDoc.chapters.length + sampleDoc.resources.length + 3 ∧
    (spineIdrefs (finalDoc sampleDoc "sample-uuid" "2025-01-01")).length =
      sampleDoc.chapters.length + 1 :=
  ⟨(manifest_spine_counts sampleDoc "sample-uuid" "2025-01-01"
      (by decide) (by decide) (by decide)).2.1,
   (manifest_spine_counts sampleDoc "sample-uuid" "2025-01-01"
      (by decide) (by decide) (by decide)).2.2.2⟩

/-! ## Claim theorems for the spine order -/

/-- Insertion of a chapter into a list sorted by `order`. -/
def insertByOrder (c : Chapter) : List Chapter → List Chapter
  | [] => [c]
  | d :: ds => if c.order ≤ d.order then c :: d :: ds else d :: insertByOrder c ds

/-- Chapters sorted by ascending `order`. -/
def sortByOrder (cs : List Chapter) : List Chapter :=
  cs.foldr insertByOrder []

/-- Following the spec's words (not the source): the spine idrefs
sequenced by the `Chapter.Order` field as the canonical reading-order
key, independent of slice position. -/
def spineIdrefsInOrderSpec (d : Document) : List String :=
  (sortByOrder d.chapters).map (·.id)

/-- A valid document whose chapters slice is NOT sorted by `Order`. -/
def unsortedDoc : Document :=
  { metadata :=
      { title := "T", authors := [], language := "", identifier := ""
        description := "", publisher := "", date := "", rights := ""
        coverImage := "" }
    chapters :=
      [{ id := "chA", title := "A", level := 1, content := "<p>a</p>"
         fileName := "content/a.xhtml", order := 1 },
       { id := "chB", title := "B", level := 1, content := "<p>b</p>"
         fileName := "content/b.xhtml", order := 0 }]
    resources := [], toc := ⟨[]⟩ }

/-- C3 counterexample: on a document whose chapters slice is not sorted
by `Order`, the generated spine keeps the slice order (`chA` before
`chB`) instead of the ascending-`Order` sequence (`chB` before `chA`). -/
theorem spine_not_ordered_by_order_field :
    build unsortedDoc "sample-uuid" "2025-01-01" =
      Except.ok (writeEPUB (finalDoc unsortedDoc "sample-uuid" "2025-01-01")
        "2025-01-01") ∧
    spineIdrefs (finalDoc unsortedDoc "sample-uuid" "2025-01-01") =
      ["chA", "chB", "colophon"] ∧
    spineIdrefsInOrderSpec (finalDoc unsortedDoc "sample-uuid" "2025-01-01") =
      ["chB", "chA", "colophon"] ∧
    spineIdrefs (finalDoc unsortedDoc "sample-uuid" "2025-01-01") ≠
      spineIdrefsInOrderSpec (finalDoc unsortedDoc "sample-uuid" "2025-01-01") :=
  ⟨rfl, rfl, rfl, by decide⟩

/-- C3 amended: the spine generated by the package document generator
lists one itemref per chapter in chapters-slice order (the colophon
appended last); the `Order` field is not consulted, so slice order and
`Order` sequence coincide only when the chapters arrive pre-sorted. -/
theorem spine_follows_slice_order (d : Document) (uuid now : String)
    (hT : d.metadata.title ≠ "") (hC : d.chapters ≠ []) :
    build d uuid now = Except.ok (writeEPUB (finalDoc d uuid now) now) ∧
    spineIdrefs (finalDoc d uuid now) =
      d.chapters.map (fun c => c.id) ++ ["colophon"] := by
  refine ⟨build_ok_final d uuid now hT hC, ?_⟩
  simp [spineIdrefs, finalDoc, addColophon, Document.addChapter, colophonChapter]

/-- Witness for `spine_follows_slice_order` at the concrete unsorted
document. -/
theorem spine_follows_slice_order_witness :
    spineIdrefs (finalDoc unsortedDoc "sample-uuid" "2025-01-01") =
      unsortedDoc.chapters.map (fun c => c.id) ++ ["colophon"] :=
  (spine_follows_slice_order unsortedDoc "sample-uuid" "2025-01-01"
    (by decide) (by decide)).2

/-! ## Claim theorems for escaping -/

/-- The escape/parse round trip on a whole string. -/
theorem unescape_escapeString (s : String) :
    unescapeChars (escapeString s).data = s.data :=
  unescape_escape s.data

/-- C7: a metadata title containing `<`, `>`, `&` or `"` renders in the
package document as a well-formed XML text node and parsing it back
recovers the original title; the same escaping (with the same round
trip) is applied to identifier, language, authors, description,
publisher and rights. -/
theorem package_metadata_escaping (d : Document) (now : String)
    (h : ∃ c ∈ d.metadata.title.data, c = '<' ∨ c = '>' ∨ c = '&' ∨ c = '"') :
    (∃ pre post, generatePackageDocument d now =
      pre ++ ("<dc:title>" ++ escapeString d.metadata.title ++ "</dc:title>") ++
        post) ∧
    textNodeOK (escapeString d.metadata.title).data = true ∧
    unescapeChars (escapeString d.metadata.title).data = d.metadata.title.data ∧
    ((mkPackageData d now).identifier = escapeString d.metadata.identifier ∧
      unescapeChars (escapeString d.metadata.identifier).data =
        d.metadata.identifier.data) ∧
    ((mkPackageData d now).language = escapeString d.metadata.language ∧
      unescapeChars (escapeString d.metadata.language).data =
        d.metadata.language.data) ∧
    ((mkPackageData d now).authors = d.metadata.authors.map escapeString ∧
      ∀ a ∈ d.metadata.authors,
        unescapeChars (escapeString a).data = a.data) ∧
    ((mkPackageData d now).description = escapeString d.metadata.description ∧
      unescapeChars (escapeString d.metadata.description).data =
        d.metadata.description.data) ∧
    ((mkPackageData d now).publisher = escapeString d.metadata.publisher ∧
      unescapeChars (escapeString d.metadata.publisher).data =
        d.metadata.publisher.data) ∧
    ((mkPackageData d now).rights = escapeString d.metadata.rights ∧
      unescapeChars (escapeString d.metadata.rights).data =
        d.metadata.rights.data) := by
  refine ⟨⟨opfBeforeTitle d now, opfAfterTitle d now, ?_⟩,
    textNodeOK_escape _, unescape_escapeString _,
    ⟨rfl, unescape_escapeString _⟩, ⟨rfl, unescape_escapeString _⟩,
    ⟨rfl, fun a _ => unescape_escapeString a⟩,
    ⟨rfl, unescape_escapeString _⟩, ⟨rfl, unescape_escapeString _⟩,
    ⟨rfl, unescape_escapeString _⟩⟩
  simp [generatePackageDocument, opfTitleElem, mkPackageData, String.append_assoc]

/-- A valid document whose title contains markup characters. -/
def specialTitleDoc : Document :=
  { sampleDoc with metadata := { sampleDoc.metadata with title := "a<b&\"c" } }

/-- Witness for `package_metadata_escaping` at a concrete title with
`<`, `&` and `"`. -/
theorem package_metadata_escaping_witness :
    textNodeOK (escapeString specialTitleDoc.metadata.title).data = true ∧
    unescapeChars (escapeString specialTitleDoc.metadata.title).data =
      specialTitleDoc.metadata.title.data :=
  ⟨(package_metadata_escaping specialTitleDoc "2025-01-01" (by decide)).2.1,
   (package_metadata_escaping specialTitleDoc "2025-01-01" (by decide)).2.2.1⟩

/-- C8: the content document's title element holds the chapter's own
title — the book title when the chapter title is empty — XML-escaped,
while the chapter body is injected into the body verbatim, never
re-escaped. -/
theorem content_doc_title_and_verbatim_body (c : Chapter) (bookTitle : String) :
    (∃ pre post, generateContentDocument c bookTitle =
      pre ++ ("<title>" ++
        escapeString (if c.title = "" then bookTitle else c.title) ++
        "</title>") ++ post) ∧
    (∃ pre2, generateContentDocument c bookTitle =
      pre2 ++ c.content ++ contentTail) := by
  constructor
  · exact ⟨contentHeadA, contentHeadB ++ c.content ++ contentTail,
      by simp [generateContentDocument, String.append_assoc]⟩
  · exact ⟨contentHeadA ++ "<title>" ++
        escapeString (if c.title = "" then bookTitle else c.title) ++
        "</title>" ++ contentHeadB,
      by simp [generateContentDocument, String.append_assoc]⟩

end EpubConv
